import Mathlib

/-!
Verification development for the alienfx ACPI controller core
(`alienfx/core/acpi_controller.py`, `alienfx/core/themefile.py`,
`alienfx/core/controller_asm100.py`).

The theme compiler (`_make_loop_cmds`, `_make_zone_cmds`), the zone
registry operations (`get_zone_name`, `_get_zone_codes`,
`_get_no_zone_code`), the ACPI driver (`acquire`/`release`/
`write_packet`/`read_packet`), the readiness-polling loop
(`_wait_controller_ready`) and `set_theme`'s resource discipline are
embedded shallowly below.  Python dictionaries are modelled as
association lists (Python 3.7+ dicts preserve insertion order, and the
source iterates over them in that order); unbounded Python integers are
modelled as `Nat`/`Int` (`~x` on a Python int is `-(x+1)`).
-/

/-! ## Theme model (`themefile.py`) -/

/-- A colour as it appears in a theme file: a JSON list of small
naturals (device scale 0-15), e.g. `[15, 0, 0]`. -/
abbrev Colour := List Nat

/-- One action dict of a theme loop.  The `type` and `colours` keys may
be absent, which `AlienFXThemeFile.get_action_type` /
`get_action_colours` report as `None` / `[]`. -/
structure ThemeAction where
  typeKey : Option String
  coloursKey : Option (List Colour)
  deriving DecidableEq, Repr

/-- One state-item dict: a `zones` key (list of zone names) and a
`loop` key (list of actions); either may be absent. -/
structure StateItem where
  zonesKey : Option (List String)
  loopKey : Option (List ThemeAction)
  deriving DecidableEq, Repr

/-- A theme: the mapping from state name to its state-item list, plus
the optional global `speed` value, split out of the one JSON dict the
source keeps in `self.theme`. -/
structure Theme where
  states : List (String × List StateItem)
  speedKey : Option Nat
  deriving DecidableEq, Repr

/-- Source `AlienFXThemeFile.get_action_type`: the `type` key, or `None`. -/
def getActionType (a : ThemeAction) : Option String :=
  a.typeKey

/-- Source `AlienFXThemeFile.get_action_colours`: the `colours` key, or `[]`. -/
def getActionColours (a : ThemeAction) : List Colour :=
  a.coloursKey.getD []

/-- Source `AlienFXThemeFile.get_zone_names`: the item's `zones` key, or `[]`
(with a logged warning, not modelled). -/
def getZoneNames (it : StateItem) : List String :=
  it.zonesKey.getD []

/-- Source `AlienFXThemeFile.get_loop_items`: the item's `loop` key, or `[]`
(with a logged warning, not modelled). -/
def getLoopItems (it : StateItem) : List ThemeAction :=
  it.loopKey.getD []

/-- Source `AlienFXThemeFile.get_state_items`: `[]` when the state name is not
a key of the theme dict, otherwise its item list. -/
def getStateItems (tf : Theme) (stateName : String) : List StateItem :=
  match tf.states.lookup stateName with
  | none => []
  | some items => items

/-! ## Controller model (`acpi_controller.py`, `controller_asm100.py`) -/

/-- The per-model tables of an `AlienFXACPIController` subclass that the
claims exercise: the zone-name-to-mask map and the state-name-to-code
map, both ordered dicts in the source. -/
structure Ctrl where
  zone_map : List (String × Nat)
  state_map : List (String × Nat)
  deriving DecidableEq, Repr

/-- Source `AlienFXControllerASM100`: zone map
`{ZONE_ALIEN_HEAD: 0x00, ZONE_POWER_BUTTON: 0x00, "SIDE_LEFT": 0x01}`
and state map `{Boot: 1, AC Sleep: 2, AC Charged: 5, AC On: 8}`,
in source insertion order. -/
def asm100 : Ctrl :=
  { zone_map := [("Alien Head", 0x00), ("Power Button", 0x00), ("SIDE_LEFT", 0x01)]
    state_map := [("Boot", 1), ("AC Sleep", 2), ("AC Charged", 5), ("AC On", 8)] }

/-- Source `AlienFXACPIController.supported_controllers` after
`controller_asm100.py` registers its instance: the ASM100 only. -/
def supportedControllers : List Ctrl := [asm100]

/-- Source `AlienFXACPIController._get_zone_codes`: OR together the masks of
the named zones, ignoring names not in the zone map. -/
def getZoneCodes (c : Ctrl) (zoneNames : List String) : Nat :=
  zoneNames.foldl
    (fun zones zone =>
      match c.zone_map.lookup zone with
      | some m => zones ||| m
      | none => zones) 0

/-- Source `AlienFXACPIController._get_no_zone_code`:
`~reduce(or, zone_map.values(), 0)`.  Python `~x` on an unbounded int
is `-(x + 1)`, hence the `Int` result (it is negative for every
controller). -/
def getNoZoneCode (c : Ctrl) : Int :=
  -(((c.zone_map.map Prod.snd).foldl (· ||| ·) 0 : Nat) + 1)

/-- The string append step of `get_zone_name`: prepend a comma unless
the accumulator is still empty. -/
def appendName (acc n : String) : String :=
  (if acc = "" then acc else acc ++ ",") ++ n

/-- Python `hex`: `"0x"` followed by the lowercase base-16 digits. -/
def natHex (n : Nat) : String :=
  "0x" ++ String.mk (Nat.toDigits 16 n)

/-- The zone-map loop of `AlienFXACPIController.get_zone_name`,
threading the accumulated name string and the remaining mask.
`zone_mask &= ~bit_mask` on a non-negative Python int is `Nat.ldiff`. -/
def gzLoop : List (String × Nat) → Nat → String → String × Nat
  | [], zoneMask, zoneName => (zoneName, zoneMask)
  | (zone, bitMask) :: rest, zoneMask, zoneName =>
    if zoneMask &&& bitMask ≠ 0 then
      gzLoop rest (Nat.ldiff zoneMask bitMask) (appendName zoneName zone)
    else
      gzLoop rest zoneMask zoneName

/-- Source `AlienFXACPIController.get_zone_name`: decode three packet bytes
into a 24-bit mask, name every overlapping zone (clearing its bits),
then render any residual bits as `UNKNOWN(<hex>)`.  The source indexes
`pkt[0..2]` directly (an `IndexError` on shorter input); the claims
only apply it to 3-byte packets, modelled with `getD`. -/
def getZoneName (c : Ctrl) (pkt : List Nat) : String :=
  let zoneMask := ((pkt.getD 0 0) <<< 16) + ((pkt.getD 1 0) <<< 8) + pkt.getD 2 0
  let (zoneName, rest) := gzLoop c.zone_map zoneMask ""
  if rest ≠ 0 then appendName zoneName ("UNKNOWN(" ++ natHex rest ++ ")")
  else zoneName

/-! ## Command packets

`alienfx.core.cmdpacket` is not part of the sources under review (only
its call sites are).  Modelled from the spec: the Packet Codec
"exposes one packet-construction operation per command kind", taking a
zone bitmask, colour tuple(s), block number or state/reset/speed code;
the claims only distinguish packets by kind and operands, so each
`make_cmd_*` constructor is modelled as one abstract constructor
carrying exactly the operands the source passes it. -/

inductive Cmd where
  | getStatus : Cmd
  | reset (code : Nat) : Cmd
  | setColour (block : Nat) (zones : Int) (colour : Colour) : Cmd
  | setBlinkColour (block : Nat) (zones : Int) (colour : Colour) : Cmd
  | setMorphColour (block : Nat) (zones : Int) (colour1 colour2 : Colour) : Cmd
  | saveNext (state : Nat) : Cmd
  | save : Cmd
  | loopBlockEnd : Cmd
  | setSpeed (speed : Nat) : Cmd
  | transmitExecute : Cmd
  deriving DecidableEq, Repr

/-- Modelled from the spec: the codec's READY status code
(`AlienFXCmdPacket.STATUS_READY`, not under src/).  The claims depend
only on equality with it, never on its value. -/
def STATUS_READY : Nat := 0x10

/-! ## Theme compiler (`_make_loop_cmds`, `_make_zone_cmds`) -/

/-- Source `AlienFXACPIController._make_loop_cmds`: dispatch each action on its
type; `fixed`/`blink` demand exactly one colour and `morph` exactly
two, otherwise the action is skipped with a warning (as is an unknown
or missing type) and compilation continues. -/
def makeLoopCmds (zones : Int) (block : Nat) : List ThemeAction → List Cmd
  | [] => []
  | item :: rest =>
    let itemColours := getActionColours item
    match getActionType item with
    | some t =>
      if t = "fixed" then
        match itemColours with
        | [c] => Cmd.setColour block zones c :: makeLoopCmds zones block rest
        | _ => makeLoopCmds zones block rest
      else if t = "blink" then
        match itemColours with
        | [c] => Cmd.setBlinkColour block zones c :: makeLoopCmds zones block rest
        | _ => makeLoopCmds zones block rest
      else if t = "morph" then
        match itemColours with
        | [c1, c2] => Cmd.setMorphColour block zones c1 c2 :: makeLoopCmds zones block rest
        | _ => makeLoopCmds zones block rest
      else makeLoopCmds zones block rest
    | none => makeLoopCmds zones block rest

/-- The per-item framing of `_make_zone_cmds`: each loop command is
preceded by a save-next marker, one more save-next marker follows the
last loop command, and the item closes with a loop-block-end marker;
in the boot pass all save-next markers are omitted. -/
def segOf (state : Nat) (boot : Bool) : List Cmd → List Cmd
  | [] => (if boot then [] else [Cmd.saveNext state]) ++ [Cmd.loopBlockEnd]
  | lc :: rest =>
    (if boot then [lc] else [Cmd.saveNext state, lc]) ++ segOf state boot rest

/-- The state-items loop of `_make_zone_cmds`: items whose loop
compiles to no packets are skipped without consuming a block number;
producing items append their framed segment and advance the block
counter.  Returns the accumulated commands and the final block
counter. -/
def zoneItemsLoop (c : Ctrl) (state : Nat) (boot : Bool) :
    List StateItem → Nat → List Cmd × Nat
  | [], block => ([], block)
  | it :: rest, block =>
    let zoneCodes := getZoneCodes c (getZoneNames it)
    let loopCmds := makeLoopCmds (Int.ofNat zoneCodes) block (getLoopItems it)
    if loopCmds.isEmpty then
      zoneItemsLoop c state boot rest block
    else
      let (tailCmds, block') := zoneItemsLoop c state boot rest (block + 1)
      (segOf state boot loopCmds ++ tailCmds, block')

/-- Source `AlienFXACPIController._make_zone_cmds`.  `none` models the
`KeyError` the source raises when the state name is not in
`self.state_map` (its caller only passes keys of that dict).  After the
items loop: one trailing save packet if anything was produced (normal
pass only); in the boot pass, unconditionally, one set-colour packet
painting the no-zone mask black at the current block number, closed by
its own loop-block-end marker. -/
def makeZoneCmds (c : Ctrl) (tf : Theme) (stateName : String) (boot : Bool) :
    Option (List Cmd) :=
  match c.state_map.lookup stateName with
  | none => none
  | some state =>
    let stateItems := getStateItems tf stateName
    let (zoneCmds, block) := zoneItemsLoop c state boot stateItems 1
    let zoneCmds1 := if ¬zoneCmds.isEmpty ∧ ¬boot then zoneCmds ++ [Cmd.save] else zoneCmds
    some (if boot then
            zoneCmds1 ++ [Cmd.setColour block (getNoZoneCode c) [0, 0, 0], Cmd.loopBlockEnd]
          else zoneCmds1)

/-! ## ACPI driver (`AlienFXACPIDriver`) and `set_theme` -/

/-- The mutable state of an `AlienFXACPIDriver`: `_control_taken` and
`_acpi_path` (initially `None`). -/
structure DriverState where
  controlTaken : Bool
  acpiPath : Option String
  deriving DecidableEq, Repr

/-- The file-system facts and fault injections the driver code
branches on: whether the ACPI path and the WMI control file exist,
the bytes a read of the control file yields (`[]` = empty/no data),
and an abstract fault for `set_theme`'s body (any exception raised
between acquire and release). -/
structure AcpiEnv where
  pathOk : Bool
  controlFileOk : Bool
  readData : List Nat
  bodyFault : Option String
  deriving DecidableEq, Repr

/-- Python truthiness of the `_acpi_path` attribute
(`None` and `""` are falsy). -/
def pathTruthy : Option String → Bool
  | none => false
  | some s => s ≠ ""

/-- Source `AlienFXACPIDriver.write_packet`: returns the bytes written to the
control file, or `none` when no file write happens (control not taken,
path missing, or control file missing); I/O errors are caught and
logged, so the call never raises. -/
def writePacket (env : AcpiEnv) (st : DriverState) (pkt : List Nat) :
    Option (List Nat) :=
  if ¬st.controlTaken then none
  else if ¬pathTruthy st.acpiPath ∨ ¬env.pathOk then none
  else if env.controlFileOk then some pkt
  else none

/-- Source `AlienFXACPIDriver.read_packet`: the first component records
whether the control file was opened for reading; the second is the
returned packet (`None` unless a truthy byte string was read).  All
exceptions are caught, so the call never raises. -/
def readPacket (env : AcpiEnv) (st : DriverState) :
    Bool × Option (List Nat) :=
  if ¬st.controlTaken then (false, none)
  else if ¬pathTruthy st.acpiPath ∨ ¬env.pathOk then (false, none)
  else if env.controlFileOk then
    (true, if env.readData.isEmpty then none else some env.readData)
  else (false, none)

/-- The `acpi_path` every controller model under review configures. -/
def defaultAcpiPath : String := "/sys/devices/platform/alienware-wmi"

/-- Source `AlienFXACPIDriver.acquire`: a no-op if control is already taken;
otherwise record the controller's ACPI path, then raise `IOError`
(modelled as `some msg`) if that path does not exist — note the path
assignment persists across the raise — else mark control taken. -/
def acquireRun (env : AcpiEnv) (st : DriverState) :
    Option String × DriverState :=
  if st.controlTaken then (none, st)
  else
    let st1 : DriverState := { st with acpiPath := some defaultAcpiPath }
    if ¬env.pathOk then
      (some "ERROR: No AlienFX ACPI/WMI controller found", st1)
    else (none, { st1 with controlTaken := true })

/-- Source `AlienFXACPIDriver.release`: a no-op unless control is taken, in
which case only `_control_taken` is cleared. -/
def releaseRun (st : DriverState) : DriverState :=
  if ¬st.controlTaken then st else { st with controlTaken := false }

/-- Source `AlienFXACPIController.set_theme`'s `try/except/finally` shape:
acquire, then the body (ping, reset, wait-ready, compile and send all
states, speed, boot replay, execute — driver-state-preserving writes
and reads, abstracted to the fault it may raise), and `finally:`
release.  Returns the propagated exception (if any) and the final
driver state. -/
def setThemeRun (env : AcpiEnv) (st : DriverState) :
    Option String × DriverState :=
  match acquireRun env st with
  | (some e, st1) => (some e, releaseRun st1)
  | (none, st1) =>
    match env.bodyFault with
    | some e => (some e, releaseRun st1)
    | none => (none, releaseRun st1)

/-! ## Readiness polling (`_wait_controller_ready`) -/

/-- One transport response during readiness polling, as
`_wait_controller_ready` distinguishes them: a packet was read
(possibly empty, which Python treats as no data), nothing was read
(`None`), or the read raised. -/
inductive PollResp where
  | data (bytes : List Nat) : PollResp
  | noData : PollResp
  | err : PollResp
  deriving DecidableEq, Repr

/-- The loop state of `_wait_controller_ready`: the `ready` flag and
the error counter. -/
structure WaitState where
  ready : Bool
  errcount : Nat
  deriving DecidableEq, Repr

/-- The falsy-response branch (`resp` is `None` or empty): count a soft
failure and optimistically flip to ready after the third. -/
def waitSoft (s : WaitState) : WaitState :=
  { ready := if s.errcount + 1 ≥ 3 then true else s.ready
    errcount := s.errcount + 1 }

/-- One iteration body of the polling loop given the transport
response: a truthy packet sets `ready` from its status byte (the error
counter is NOT touched in that branch), no data counts a soft failure
with the assume-ready-after-3 rule, and an exception counts a failure. -/
def waitStep (r : PollResp) (s : WaitState) : WaitState :=
  match r with
  | .data bs =>
    if bs.isEmpty then waitSoft s
    else { s with ready := bs.headD 0 == STATUS_READY }
  | .noData => waitSoft s
  | .err => { s with errcount := s.errcount + 1 }

/-- The loop guard: `while not ready and errcount < max_retries` with
`max_retries = 10`. -/
def waitGuard (s : WaitState) : Bool :=
  !s.ready && decide (s.errcount < 10)

/-- The loop state before attempt `k+1`, feeding attempt `k` the `k`-th
response of the stream `f`; once the guard fails the state freezes
(the loop has exited, having made exactly the guarded attempts). -/
def waitIter (f : Nat → PollResp) : Nat → WaitState
  | 0 => ⟨false, 0⟩
  | k + 1 =>
    let s := waitIter f k
    if waitGuard s then waitStep (f k) s else s

/-! ## Derived specification-side functions -/

/-- Whether a state-item compiles to at least one action packet
(`loop_cmds` nonempty); this does not depend on the block number. -/
def producing (c : Ctrl) (it : StateItem) : Bool :=
  ¬(makeLoopCmds (Int.ofNat (getZoneCodes c (getZoneNames it))) 0
      (getLoopItems it)).isEmpty

/-- The packet-producing state-items, in theme order. -/
def prodItems (c : Ctrl) (items : List StateItem) : List StateItem :=
  items.filter (producing c)

/-- The framed segment a single item contributes when compiled at block
number `b`. -/
def segAt (c : Ctrl) (state : Nat) (boot : Bool) (b : Nat) (it : StateItem) :
    List Cmd :=
  segOf state boot
    (makeLoopCmds (Int.ofNat (getZoneCodes c (getZoneNames it))) b (getLoopItems it))

/-- Segments of a run of items at consecutive block numbers
`b, b+1, ...`. -/
def segsFrom (c : Ctrl) (state : Nat) (boot : Bool) : Nat → List StateItem → List Cmd
  | _, [] => []
  | b, it :: rest => segAt c state boot b it ++ segsFrom c state boot (b + 1) rest

/-- The block number a command packet carries, for the three
colour-action packets. -/
def blockOf : Cmd → Option Nat
  | .setColour b _ _ => some b
  | .setBlinkColour b _ _ => some b
  | .setMorphColour b _ _ _ => some b
  | _ => none

/-- The zone mask a colour-action packet addresses. -/
def zonesOf : Cmd → Option Int
  | .setColour _ z _ => some z
  | .setBlinkColour _ z _ => some z
  | .setMorphColour _ z _ _ => some z
  | _ => none

/-- Save-next marker recogniser. -/
def isSaveNextCmd : Cmd → Bool
  | .saveNext _ => true
  | _ => false

/-- Colour-action packet recogniser. -/
def isActionCmd : Cmd → Bool
  | .setColour _ _ _ => true
  | .setBlinkColour _ _ _ => true
  | .setMorphColour _ _ _ _ => true
  | _ => false

/-- An action whose colour list does not match its declared type's
arity (fixed/blink: 1 colour, morph: 2 colours). -/
def arityMismatch (a : ThemeAction) : Prop :=
  (getActionType a = some "fixed" ∧ (getActionColours a).length ≠ 1) ∨
  (getActionType a = some "blink" ∧ (getActionColours a).length ≠ 1) ∨
  (getActionType a = some "morph" ∧ (getActionColours a).length ≠ 2)

instance (a : ThemeAction) : Decidable (arityMismatch a) := by
  unfold arityMismatch; infer_instance

/-- OR of all masks of a registry (specification-side foldr form). -/
def orMasks (zm : List (String × Nat)) : Nat :=
  (zm.map Prod.snd).foldr (· ||| ·) 0

/-- The big-endian 3-byte encoding of a 24-bit zone code, as placed in
a command packet's zone field. -/
def enc3 (u : Nat) : List Nat :=
  [u / 65536 % 256, u / 256 % 256, u % 256]

/-- The concrete scenario controller: `Left Keyboard` has mask `0x1`,
and `Boot` is a recognised state. -/
def ctrlLK : Ctrl :=
  { zone_map := [("Left Keyboard", 0x01)]
    state_map := [("Boot", 1)] }

/-- The concrete scenario theme
`{"Boot": [{"zones": ["Left Keyboard"],
"loop": [{"type": "fixed", "colours": [[15,0,0]]}]}], "speed": 200}`. -/
def themeLK : Theme :=
  { states := [("Boot",
      [{ zonesKey := some ["Left Keyboard"]
         loopKey := some [{ typeKey := some "fixed"
                            coloursKey := some [[15, 0, 0]] }] }])]
    speedKey := some 200 }

/-! ## Lemmas: the loop-command compiler -/

/-- The packet one action contributes, if any: the branch structure of
`_make_loop_cmds` for a single action. -/
def actionCmd (zones : Int) (block : Nat) (a : ThemeAction) : Option Cmd :=
  match getActionType a with
  | some t =>
    if t = "fixed" then
      match getActionColours a with
      | [c] => some (Cmd.setColour block zones c)
      | _ => none
    else if t = "blink" then
      match getActionColours a with
      | [c] => some (Cmd.setBlinkColour block zones c)
      | _ => none
    else if t = "morph" then
      match getActionColours a with
      | [c1, c2] => some (Cmd.setMorphColour block zones c1 c2)
      | _ => none
    else none
  | none => none

theorem makeLoopCmds_eq_filterMap (z : Int) (b : Nat) (l : List ThemeAction) :
    makeLoopCmds z b l = l.filterMap (actionCmd z b) := by
  induction l with
  | nil => rfl
  | cons a rest ih =>
    simp only [makeLoopCmds, List.filterMap_cons, actionCmd]
    cases hty : getActionType a with
    | none => exact ih
    | some t =>
      by_cases h1 : t = "fixed"
      · simp only [h1, if_pos rfl]
        cases hc : getActionColours a with
        | nil => exact ih
        | cons c cs =>
          cases cs with
          | nil => simp [ih]
          | cons c2 cs2 => exact ih
      · by_cases h2 : t = "blink"
        · simp only [h2, if_neg (by simp [h2] : ¬("blink" : String) = "fixed"), if_pos rfl]
          cases hc : getActionColours a with
          | nil => exact ih
          | cons c cs =>
            cases cs with
            | nil => simp [ih]
            | cons c2 cs2 => exact ih
        · by_cases h3 : t = "morph"
          · simp only [h3, if_neg (by simp : ¬("morph" : String) = "fixed"),
              if_neg (by simp : ¬("morph" : String) = "blink"), if_pos rfl]
            cases hc : getActionColours a with
            | nil => exact ih
            | cons c cs =>
              cases cs with
              | nil => exact ih
              | cons c2 cs2 =>
                cases cs2 with
                | nil => simp [ih]
                | cons c3 cs3 => exact ih
          · simp only [if_neg h1, if_neg h2, if_neg h3]
            exact ih

theorem actionCmd_isSome_indep (z z' : Int) (b b' : Nat) (a : ThemeAction) :
    (actionCmd z b a).isSome = (actionCmd z' b' a).isSome := by
  unfold actionCmd
  cases getActionType a with
  | none => rfl
  | some t =>
    by_cases h1 : t = "fixed"
    · simp only [h1, if_pos rfl]
      cases getActionColours a with
      | nil => rfl
      | cons c cs => cases cs <;> rfl
    · by_cases h2 : t = "blink"
      · simp only [h2, if_neg (by simp : ¬("blink" : String) = "fixed"), if_pos rfl]
        cases getActionColours a with
        | nil => rfl
        | cons c cs => cases cs <;> rfl
      · by_cases h3 : t = "morph"
        · simp only [h3, if_neg (by simp : ¬("morph" : String) = "fixed"),
            if_neg (by simp : ¬("morph" : String) = "blink"), if_pos rfl]
          cases getActionColours a with
          | nil => rfl
          | cons c cs =>
            cases cs with
            | nil => rfl
            | cons c2 cs2 => cases cs2 <;> rfl
        · simp only [if_neg h1, if_neg h2, if_neg h3]

theorem makeLoopCmds_isEmpty_indep (z z' : Int) (b b' : Nat) (l : List ThemeAction) :
    (makeLoopCmds z b l).isEmpty = (makeLoopCmds z' b' l).isEmpty := by
  rw [makeLoopCmds_eq_filterMap, makeLoopCmds_eq_filterMap]
  induction l with
  | nil => rfl
  | cons a rest ih =>
    simp only [List.filterMap_cons]
    have := actionCmd_isSome_indep z z' b b' a
    cases ha : actionCmd z b a <;> cases ha' : actionCmd z' b' a <;>
      simp_all [Option.isSome]

theorem mem_makeLoopCmds (z : Int) (b : Nat) (l : List ThemeAction) (cmd : Cmd)
    (h : cmd ∈ makeLoopCmds z b l) :
    blockOf cmd = some b ∧ zonesOf cmd = some z ∧ isActionCmd cmd = true := by
  rw [makeLoopCmds_eq_filterMap] at h
  obtain ⟨a, _, ha⟩ := List.mem_filterMap.mp h
  revert ha
  unfold actionCmd
  cases hty : getActionType a with
  | none => intro ha; simp at ha
  | some t =>
    by_cases h1 : t = "fixed"
    · simp only [h1, if_pos rfl]
      cases hc : getActionColours a with
      | nil => intro ha; simp at ha
      | cons c cs =>
        cases cs with
        | nil => intro ha; cases ha; exact ⟨rfl, rfl, rfl⟩
        | cons c2 cs2 => intro ha; simp at ha
    · by_cases h2 : t = "blink"
      · simp only [h2, if_neg (by simp : ¬("blink" : String) = "fixed"), if_pos rfl]
        cases hc : getActionColours a with
        | nil => intro ha; simp at ha
        | cons c cs =>
          cases cs with
          | nil => intro ha; cases ha; exact ⟨rfl, rfl, rfl⟩
          | cons c2 cs2 => intro ha; simp at ha
      · by_cases h3 : t = "morph"
        · simp only [h3, if_neg (by simp : ¬("morph" : String) = "fixed"),
            if_neg (by simp : ¬("morph" : String) = "blink"), if_pos rfl]
          cases hc : getActionColours a with
          | nil => intro ha; simp at ha
          | cons c cs =>
            cases cs with
            | nil => intro ha; simp at ha
            | cons c2 cs2 =>
              cases cs2 with
              | nil => intro ha; cases ha; exact ⟨rfl, rfl, rfl⟩
              | cons c3 cs3 => intro ha; simp at ha
        · simp only [if_neg h1, if_neg h2, if_neg h3]
          intro ha; simp at ha

/-! ## Lemmas: block framing and the state-items loop -/

theorem mem_segOf (state : Nat) (boot : Bool) (lcs : List Cmd) (cmd : Cmd)
    (h : cmd ∈ segOf state boot lcs) :
    cmd = Cmd.loopBlockEnd ∨ cmd = Cmd.saveNext state ∨ cmd ∈ lcs := by
  induction lcs with
  | nil =>
    cases boot <;> simp [segOf] at h <;> tauto
  | cons lc rest ih =>
    cases boot with
    | false =>
      have h' : cmd = Cmd.saveNext state ∨ cmd = lc ∨ cmd ∈ segOf state false rest := by
        simpa [segOf] using h
      rcases h' with h' | h' | h'
      · exact Or.inr (Or.inl h')
      · subst h'; simp
      · rcases ih h' with h2 | h2 | h2
        · exact Or.inl h2
        · exact Or.inr (Or.inl h2)
        · exact Or.inr (Or.inr (by simp [h2]))
    | true =>
      have h' : cmd = lc ∨ cmd ∈ segOf state true rest := by
        simpa [segOf] using h
      rcases h' with h' | h'
      · subst h'; simp
      · rcases ih h' with h2 | h2 | h2
        · exact Or.inl h2
        · exact Or.inr (Or.inl h2)
        · exact Or.inr (Or.inr (by simp [h2]))

theorem segOf_count_loopBlockEnd (state : Nat) (boot : Bool) (lcs : List Cmd)
    (hAct : ∀ cmd ∈ lcs, isActionCmd cmd = true) :
    (segOf state boot lcs).count Cmd.loopBlockEnd = 1 := by
  induction lcs with
  | nil => cases boot <;> simp [segOf]
  | cons lc rest ih =>
    have hlc : isActionCmd lc = true := hAct lc (by simp)
    have hne : lc ≠ Cmd.loopBlockEnd := by
      intro h; rw [h] at hlc; simp [isActionCmd] at hlc
    have hne2 : (Cmd.saveNext state) ≠ Cmd.loopBlockEnd := by simp
    have := ih (fun cmd hc => hAct cmd (by simp [hc]))
    cases boot <;>
      simp_all [segOf, List.count_cons, List.count_append]

theorem segOf_count_save (state : Nat) (boot : Bool) (lcs : List Cmd)
    (hAct : ∀ cmd ∈ lcs, isActionCmd cmd = true) :
    (segOf state boot lcs).count Cmd.save = 0 := by
  induction lcs with
  | nil => cases boot <;> simp [segOf]
  | cons lc rest ih =>
    have hlc : isActionCmd lc = true := hAct lc (by simp)
    have hne : lc ≠ Cmd.save := by
      intro h; rw [h] at hlc; simp [isActionCmd] at hlc
    have := ih (fun cmd hc => hAct cmd (by simp [hc]))
    cases boot <;>
      simp_all [segOf, List.count_cons, List.count_append]

theorem segOf_countP_saveNext_boot (state : Nat) (lcs : List Cmd)
    (hAct : ∀ cmd ∈ lcs, isActionCmd cmd = true) :
    (segOf state true lcs).countP isSaveNextCmd = 0 := by
  induction lcs with
  | nil => simp [segOf, List.countP_cons, isSaveNextCmd]
  | cons lc rest ih =>
    have hlc : isActionCmd lc = true := hAct lc (by simp)
    have hne : isSaveNextCmd lc = false := by
      cases lc <;> simp_all [isActionCmd, isSaveNextCmd]
    have := ih (fun cmd hc => hAct cmd (by simp [hc]))
    simp_all [segOf, List.countP_cons, List.countP_append]

theorem segOf_ne_nil (state : Nat) (boot : Bool) (lcs : List Cmd) :
    segOf state boot lcs ≠ [] := by
  induction lcs with
  | nil => cases boot <;> simp [segOf]
  | cons lc rest ih => cases boot <;> simp [segOf]

/-- The `loop_cmds` emptiness does not depend on the block counter, so an
item is `producing` independently of where the block counter stands. -/
theorem loopCmds_isEmpty_eq (c : Ctrl) (it : StateItem) (b : Nat) :
    (makeLoopCmds (Int.ofNat (getZoneCodes c (getZoneNames it))) b
        (getLoopItems it)).isEmpty = !(producing c it) := by
  unfold producing
  rw [makeLoopCmds_isEmpty_indep _ (Int.ofNat (getZoneCodes c (getZoneNames it))) _ 0]
  cases (makeLoopCmds (Int.ofNat (getZoneCodes c (getZoneNames it))) 0
      (getLoopItems it)).isEmpty <;> simp

/-- Structure of the state-items loop of `_make_zone_cmds`: the output
is the concatenation of the framed segments of exactly the producing
items, compiled at consecutive block numbers starting from the incoming
counter, and the counter advances by the number of producing items. -/
theorem zoneItemsLoop_eq (c : Ctrl) (state : Nat) (boot : Bool)
    (items : List StateItem) : ∀ b : Nat,
    zoneItemsLoop c state boot items b =
      (segsFrom c state boot b (prodItems c items),
       b + (prodItems c items).length) := by
  induction items with
  | nil => intro b; simp [zoneItemsLoop, prodItems, segsFrom]
  | cons it rest ih =>
    intro b
    simp only [zoneItemsLoop, prodItems, List.filter_cons]
    rw [loopCmds_isEmpty_eq]
    cases hp : producing c it with
    | false =>
      simp only [Bool.not_false, if_pos rfl]
      have := ih b
      simp only [prodItems] at this
      simpa using this
    | true =>
      simp only [Bool.not_true]
      rw [if_neg (by simp)]
      have := ih (b + 1)
      simp only [prodItems] at this
      rw [this]
      simp only [segsFrom, segAt, Prod.mk.injEq, List.length_cons, if_true]
      exact ⟨trivial, by omega⟩

theorem segsFrom_count_loopBlockEnd (c : Ctrl) (state : Nat) (boot : Bool) :
    ∀ (b : Nat) (its : List StateItem),
    (segsFrom c state boot b its).count Cmd.loopBlockEnd = its.length := by
  intro b its
  induction its generalizing b with
  | nil => simp [segsFrom]
  | cons it rest ih =>
    simp only [segsFrom, segAt, List.count_append, List.length_cons]
    rw [segOf_count_loopBlockEnd _ _ _
      (fun cmd hc => (mem_makeLoopCmds _ _ _ _ hc).2.2), ih]
    omega

theorem segsFrom_count_save (c : Ctrl) (state : Nat) (boot : Bool) :
    ∀ (b : Nat) (its : List StateItem),
    (segsFrom c state boot b its).count Cmd.save = 0 := by
  intro b its
  induction its generalizing b with
  | nil => simp [segsFrom]
  | cons it rest ih =>
    simp only [segsFrom, segAt, List.count_append]
    rw [segOf_count_save _ _ _
      (fun cmd hc => (mem_makeLoopCmds _ _ _ _ hc).2.2), ih]

theorem segsFrom_countP_saveNext_boot (c : Ctrl) (state : Nat) :
    ∀ (b : Nat) (its : List StateItem),
    (segsFrom c state true b its).countP isSaveNextCmd = 0 := by
  intro b its
  induction its generalizing b with
  | nil => simp [segsFrom]
  | cons it rest ih =>
    simp only [segsFrom, segAt, List.countP_append]
    rw [segOf_countP_saveNext_boot _ _
      (fun cmd hc => (mem_makeLoopCmds _ _ _ _ hc).2.2), ih]

theorem segsFrom_eq_nil_iff (c : Ctrl) (state : Nat) (boot : Bool)
    (b : Nat) (its : List StateItem) :
    segsFrom c state boot b its = [] ↔ its = [] := by
  cases its with
  | nil => simp [segsFrom]
  | cons it rest =>
    simp only [segsFrom]
    constructor
    · intro h
      exact absurd (List.append_eq_nil.mp h).1 (segOf_ne_nil _ _ _)
    · intro h; cases h

theorem zonesOf_segsFrom (c : Ctrl) (state : Nat) (boot : Bool) :
    ∀ (b : Nat) (its : List StateItem) (cmd : Cmd), cmd ∈ segsFrom c state boot b its →
    zonesOf cmd = none ∨ ∃ n : Nat, zonesOf cmd = some (Int.ofNat n) := by
  intro b its
  induction its generalizing b with
  | nil => intro cmd h; simp [segsFrom] at h
  | cons it rest ih =>
    intro cmd h
    rcases List.mem_append.mp h with h | h
    · rcases mem_segOf _ _ _ _ h with h' | h' | h'
      · subst h'; left; rfl
      · subst h'; left; rfl
      · right
        exact ⟨_, (mem_makeLoopCmds _ _ _ _ h').2.1⟩
    · exact ih _ cmd h

theorem getNoZoneCode_neg (c : Ctrl) : getNoZoneCode c < 0 := by
  unfold getNoZoneCode
  omega

theorem countP_noZone_segsFrom (c : Ctrl) (state : Nat) (boot : Bool)
    (b : Nat) (its : List StateItem) :
    (segsFrom c state boot b its).countP
      (fun cmd => zonesOf cmd == some (getNoZoneCode c)) = 0 := by
  rw [List.countP_eq_zero]
  intro cmd hc
  rcases zonesOf_segsFrom c state boot b its cmd hc with h | ⟨n, h⟩ <;>
    simp only [h, beq_iff_eq]
  · simp
  · intro heq
    have h1 := getNoZoneCode_neg c
    have h2 : (Int.ofNat n) = getNoZoneCode c := by
      simpa using heq
    have h3 : (0 : Int) ≤ Int.ofNat n := Int.ofNat_nonneg n
    omega

/-- Characterization of `_make_zone_cmds` in the normal pass, given that the state name is
in the state map: the producing items' framed segments at blocks
`1, …, N`, plus one trailing save packet when anything was produced. -/
theorem makeZoneCmds_false_eq (c : Ctrl) (tf : Theme) (stateName : String)
    (state : Nat) (h : c.state_map.lookup stateName = some state) :
    makeZoneCmds c tf stateName false =
      some (segsFrom c state false 1 (prodItems c (getStateItems tf stateName)) ++
        (if prodItems c (getStateItems tf stateName) = [] then [] else [Cmd.save])) := by
  unfold makeZoneCmds
  rw [h]
  simp only [zoneItemsLoop_eq]
  by_cases hp : prodItems c (getStateItems tf stateName) = []
  · simp [hp, segsFrom]
  · have hne : (segsFrom c state false 1
        (prodItems c (getStateItems tf stateName))).isEmpty = false := by
      rw [List.isEmpty_eq_false, Ne, segsFrom_eq_nil_iff]
      exact hp
    simp [hp, hne]

/-- Characterization of `_make_zone_cmds` in the boot-replay pass, given that the state
name is in the state map: the producing items' unsaved segments at
blocks `1, …, N`, no save packet, and the synthetic
paint-the-no-zone-mask-black block at block `N + 1`. -/
theorem makeZoneCmds_true_eq (c : Ctrl) (tf : Theme) (stateName : String)
    (state : Nat) (h : c.state_map.lookup stateName = some state) :
    makeZoneCmds c tf stateName true =
      some (segsFrom c state true 1 (prodItems c (getStateItems tf stateName)) ++
        [Cmd.setColour (1 + (prodItems c (getStateItems tf stateName)).length)
           (getNoZoneCode c) [0, 0, 0], Cmd.loopBlockEnd]) := by
  unfold makeZoneCmds
  rw [h]
  simp only [zoneItemsLoop_eq]
  simp

/-! ## Lemmas: the readiness-polling loop -/

/-- A transport response that is not a data packet carrying a
non-READY status byte: either no data / an error, or a READY packet. -/
def goodResp : PollResp → Bool
  | .data bs => bs.isEmpty || (bs.headD 0 == STATUS_READY)
  | .noData => true
  | .err => true

theorem waitIter_frozen (f : Nat → PollResp) (k : Nat)
    (h : waitGuard (waitIter f k) = false) :
    waitIter f (k + 1) = waitIter f k := by
  simp only [waitIter]
  rw [if_neg]
  simp [h]

theorem waitIter_errcount (f : Nat → PollResp)
    (hf : ∀ n, goodResp (f n) = true) :
    ∀ k, waitGuard (waitIter f k) = true → k ≤ (waitIter f k).errcount := by
  intro k
  induction k with
  | zero => intro _; exact Nat.zero_le _
  | succ k ih =>
    intro hg
    cases hk : waitGuard (waitIter f k) with
    | false =>
      rw [waitIter_frozen f k hk] at hg
      rw [hg] at hk
      cases hk
    | true =>
      have hik := ih hk
      have hstep : waitIter f (k + 1) = waitStep (f k) (waitIter f k) := by
        simp only [waitIter]
        rw [if_pos hk]
      rw [hstep] at hg ⊢
      have hgood := hf k
      cases hfk : f k with
      | data bs =>
        rw [hfk] at hgood
        simp only [goodResp] at hgood
        cases hbs : bs.isEmpty with
        | true =>
          simp [waitStep, hbs, waitSoft]
          omega
        | false =>
          rw [hbs] at hgood
          simp only [Bool.false_or] at hgood
          rw [hfk] at hg
          have hbs' : bs ≠ [] := by simpa using hbs
          simp [waitStep, hbs', waitGuard] at hg hgood
          exact absurd hgood hg.1
      | noData =>
        simp only [waitStep, waitSoft]
        omega
      | err =>
        simp only [waitStep]
        omega

/-! ## Lemmas: bitwise arithmetic for zone decomposition -/

theorem land_eq_zero_iff_testBit (m n : Nat) :
    m &&& n = 0 ↔ ∀ i, m.testBit i = false ∨ n.testBit i = false := by
  constructor
  · intro h i
    have := congrArg (fun x => Nat.testBit x i) h
    simp only [Nat.testBit_land, Nat.zero_testBit] at this
    rcases Bool.and_eq_false_iff.mp this with h' | h'
    · exact Or.inl h'
    · exact Or.inr h'
  · intro h
    apply Nat.eq_of_testBit_eq
    intro i
    simp only [Nat.testBit_land, Nat.zero_testBit]
    rcases h i with h' | h' <;> simp [h']

theorem ldiff_land_of_disjoint (u m n : Nat) (h : m &&& n = 0) :
    Nat.ldiff u m &&& n = u &&& n := by
  apply Nat.eq_of_testBit_eq
  intro i
  simp only [Nat.testBit_land, Nat.testBit_ldiff]
  rcases (land_eq_zero_iff_testBit m n).mp h i with h' | h' <;> simp [h']

theorem ldiff_ldiff_lor (u a b : Nat) :
    Nat.ldiff (Nat.ldiff u a) b = Nat.ldiff u (a ||| b) := by
  apply Nat.eq_of_testBit_eq
  intro i
  simp only [Nat.testBit_ldiff, Nat.testBit_lor]
  cases u.testBit i <;> cases a.testBit i <;> cases b.testBit i <;> rfl

theorem ldiff_lor_of_disjoint (u a b : Nat) (h : u &&& a = 0) :
    Nat.ldiff u (a ||| b) = Nat.ldiff u b := by
  apply Nat.eq_of_testBit_eq
  intro i
  simp only [Nat.testBit_ldiff, Nat.testBit_lor]
  rcases (land_eq_zero_iff_testBit u a).mp h i with h' | h' <;>
    cases hb : u.testBit i <;> simp_all

theorem ldiff_zero_right (u : Nat) : Nat.ldiff u 0 = u := by
  apply Nat.eq_of_testBit_eq
  intro i
  simp [Nat.testBit_ldiff]

theorem land_lor_ldiff_partition (u v : Nat) :
    ((u &&& v) ||| Nat.ldiff u v = u) ∧ ((u &&& v) &&& Nat.ldiff u v = 0) := by
  constructor <;> apply Nat.eq_of_testBit_eq <;> intro i <;>
    simp only [Nat.testBit_lor, Nat.testBit_land, Nat.testBit_ldiff,
      Nat.zero_testBit] <;>
    cases u.testBit i <;> cases v.testBit i <;> rfl

theorem orMasks_cons (p : String × Nat) (rest : List (String × Nat)) :
    orMasks (p :: rest) = p.2 ||| orMasks rest := rfl

theorem orMasks_testBit (zm : List (String × Nat)) (i : Nat) :
    (orMasks zm).testBit i = zm.any (fun p => p.2.testBit i) := by
  induction zm with
  | nil => simp [orMasks]
  | cons p rest ih =>
    rw [orMasks_cons, Nat.testBit_lor, ih, List.any_cons]

/-- The zone-map loop of `get_zone_name`, specified: with pairwise
disjoint zone masks it names exactly the zones overlapping the input
mask, in map order, and leaves as residue exactly the input bits that
belong to no zone of the map. -/
theorem gzLoop_spec (zm : List (String × Nat)) :
    zm.Pairwise (fun p q => p.2 &&& q.2 = 0) →
    ∀ (u : Nat) (acc : String),
    gzLoop zm u acc =
      ((zm.filter (fun p => u &&& p.2 != 0)).foldl (fun a p => appendName a p.1) acc,
       Nat.ldiff u (orMasks zm)) := by
  induction zm with
  | nil =>
    intro _ u acc
    simp [gzLoop, orMasks, ldiff_zero_right]
  | cons p rest ih =>
    intro hpd u acc
    obtain ⟨hd, hp⟩ := List.pairwise_cons.mp hpd
    obtain ⟨pn, pm⟩ := p
    simp only [gzLoop, List.filter_cons]
    by_cases hm : u &&& pm ≠ 0
    · rw [if_pos hm, ih hp]
      have hfil : rest.filter (fun q => Nat.ldiff u pm &&& q.2 != 0)
          = rest.filter (fun q => u &&& q.2 != 0) := by
        apply List.filter_congr
        intro q hq
        rw [ldiff_land_of_disjoint u pm q.2 (hd q hq)]
      rw [hfil]
      have hcond : ((u &&& pm != 0) = true) := by simpa using hm
      rw [if_pos hcond]
      rw [List.foldl_cons]
      rw [ldiff_ldiff_lor, orMasks_cons]
    · rw [if_neg hm, ih hp]
      have hm0 : u &&& pm = 0 := of_not_not hm
      have hcond : ¬((u &&& pm != 0) = true) := by simpa using hm0
      rw [if_neg hcond]
      rw [orMasks_cons, ldiff_lor_of_disjoint u pm (orMasks rest) hm0]

theorem lookup_mem {zm : List (String × Nat)} {n : String} {m : Nat}
    (h : zm.lookup n = some m) : (n, m) ∈ zm := by
  induction zm with
  | nil => cases h
  | cons p rest ih =>
    obtain ⟨pn, pm⟩ := p
    by_cases hbe : n = pn
    · subst hbe
      rw [List.lookup_cons_self] at h
      cases h
      exact List.mem_cons_self _ _
    · have hstep : ((pn, pm) :: rest).lookup n = rest.lookup n := by
        rw [List.lookup_cons]
        have : (n == pn) = false := by simpa using hbe
        rw [this]
      rw [hstep] at h
      exact List.mem_cons_of_mem _ (ih h)

theorem lookup_of_nodup {zm : List (String × Nat)}
    (hnd : (zm.map Prod.fst).Nodup) {p : String × Nat} (hp : p ∈ zm) :
    zm.lookup p.1 = some p.2 := by
  induction zm with
  | nil => cases hp
  | cons q rest ih =>
    obtain ⟨qn, qm⟩ := q
    rw [List.map_cons, List.nodup_cons] at hnd
    rcases List.mem_cons.mp hp with h | h
    · subst h
      exact List.lookup_cons_self
    · have hne : p.1 ≠ qn := by
        intro he
        exact hnd.1 (List.mem_map.mpr ⟨p, h, he⟩)
      have hstep : ((qn, qm) :: rest).lookup p.1 = rest.lookup p.1 := by
        rw [List.lookup_cons]
        have : (p.1 == qn) = false := by simpa using hne
        rw [this]
      rw [hstep]
      exact ih hnd.2 h

theorem getZoneCodes_testBit (c : Ctrl) : ∀ (S : List String) (z i : Nat),
    (S.foldl (fun zones zone =>
        match c.zone_map.lookup zone with
        | some m => zones ||| m
        | none => zones) z).testBit i
    = (z.testBit i || S.any (fun n => ((c.zone_map.lookup n).getD 0).testBit i)) := by
  intro S
  induction S with
  | nil => intro z i; simp
  | cons n rest ih =>
    intro z i
    simp only [List.foldl_cons, List.any_cons]
    have hstep : (match c.zone_map.lookup n with
        | some m => z ||| m
        | none => z) = z ||| ((c.zone_map.lookup n).getD 0) := by
      cases c.zone_map.lookup n <;> simp
    rw [hstep, ih, Nat.testBit_lor, Bool.or_assoc]

theorem ne_zero_iff_exists_testBit (n : Nat) :
    n ≠ 0 ↔ ∃ i, n.testBit i = true := by
  constructor
  · intro h
    by_contra hc
    push_neg at hc
    apply h
    apply Nat.eq_of_testBit_eq
    intro i
    simp only [Nat.zero_testBit]
    exact Bool.eq_false_iff.mpr fun ht => (hc i) ht
  · rintro ⟨i, hi⟩ h0
    rw [h0] at hi
    simp at hi

/-- Disjointness of zone masks is a symmetric relation. -/
theorem maskDisjointSymm :
    Symmetric (fun p q : String × Nat => p.2 &&& q.2 = 0) := by
  intro p q h
  rw [Nat.land_comm]
  exact h

theorem getZoneCodes_testBit_iff (c : Ctrl) (S : List String) (i : Nat) :
    (getZoneCodes c S).testBit i
    = S.any (fun n => ((c.zone_map.lookup n).getD 0).testBit i) := by
  unfold getZoneCodes
  rw [getZoneCodes_testBit]
  simp

theorem getZoneCodes_lt_two_pow (c : Ctrl) (S : List String)
    (hlt : ∀ p ∈ c.zone_map, p.2 < 2 ^ 24) :
    getZoneCodes c S < 2 ^ 24 := by
  apply Nat.lt_pow_two_of_testBit
  intro i hi
  rw [getZoneCodes_testBit_iff]
  rw [List.any_eq_false]
  intro n _
  cases hlk : c.zone_map.lookup n with
  | none => simp
  | some m =>
    have hm := hlt _ (lookup_mem hlk)
    simp only [Option.getD_some]
    have hmi : m < 2 ^ i := by
      calc m < 2 ^ 24 := hm
      _ ≤ 2 ^ i := Nat.pow_le_pow_right (by omega) hi
    simp [Nat.testBit_lt_two_pow hmi]

/-- Decoding `get_zone_name`'s three packet bytes recovers any 24-bit
zone code. -/
theorem dec_enc3 (u : Nat) (h : u < 2 ^ 24) :
    (((enc3 u).getD 0 0) <<< 16) + (((enc3 u).getD 1 0) <<< 8) + (enc3 u).getD 2 0
      = u := by
  simp only [enc3, List.getD, List.get?, Nat.shiftLeft_eq]
  norm_num
  omega

/-- For every set bit of the matched-zone masks decomposition: a zone
of a pairwise-disjoint registry is matched by `get_zone_name`'s loop
iff its name was one of the composed zones. -/
theorem matched_iff_mem (c : Ctrl) (S : List String)
    (hpd : c.zone_map.Pairwise (fun p q => p.2 &&& q.2 = 0))
    (hnz : ∀ p ∈ c.zone_map, p.2 ≠ 0)
    (hnd : (c.zone_map.map Prod.fst).Nodup) :
    ∀ p ∈ c.zone_map,
      (getZoneCodes c S &&& p.2 != 0) = decide (p.1 ∈ S) := by
  intro p hp
  by_cases hin : p.1 ∈ S
  · have hlk : c.zone_map.lookup p.1 = some p.2 := lookup_of_nodup hnd hp
    obtain ⟨i, hbit⟩ := (ne_zero_iff_exists_testBit p.2).mp (hnz p hp)
    have hubit : (getZoneCodes c S).testBit i = true := by
      rw [getZoneCodes_testBit_iff]
      exact List.any_eq_true.mpr ⟨p.1, hin, by rw [hlk]; exact hbit⟩
    have hland : (getZoneCodes c S &&& p.2).testBit i = true := by
      simp [Nat.testBit_land, hubit, hbit]
    have hne : getZoneCodes c S &&& p.2 ≠ 0 := by
      intro h0
      rw [h0] at hland
      simp at hland
    simp [hne, hin]
  · have h0 : getZoneCodes c S &&& p.2 = 0 := by
      rw [land_eq_zero_iff_testBit]
      intro i
      cases hub : (getZoneCodes c S).testBit i with
      | false => exact Or.inl rfl
      | true =>
        right
        rw [getZoneCodes_testBit_iff] at hub
        obtain ⟨n, hnS, hbit⟩ := List.any_eq_true.mp hub
        cases hlk : c.zone_map.lookup n with
        | none => rw [hlk] at hbit; simp at hbit
        | some m =>
          rw [hlk] at hbit
          simp only [Option.getD_some] at hbit
          have hqm : (n, m) ∈ c.zone_map := lookup_mem hlk
          have hne : p ≠ (n, m) := by
            intro he
            rw [he] at hin
            exact hin hnS
          have hdisj : p.2 &&& m = 0 :=
            (List.Pairwise.forall maskDisjointSymm hpd) hp hqm hne
          rcases (land_eq_zero_iff_testBit p.2 m).mp hdisj i with h' | h'
          · exact h'
          · rw [h'] at hbit
            cases hbit
    simp [h0, hin]

/-- Composing only known zones leaves no residue for the `UNKNOWN`
token: all bits of `_get_zone_codes` lie inside the registry's masks. -/
theorem getZoneCodes_resid_zero (c : Ctrl) (S : List String) :
    Nat.ldiff (getZoneCodes c S) (orMasks c.zone_map) = 0 := by
  apply Nat.eq_of_testBit_eq
  intro i
  simp only [Nat.testBit_ldiff, Nat.zero_testBit]
  cases hub : (getZoneCodes c S).testBit i with
  | false => rfl
  | true =>
    rw [getZoneCodes_testBit_iff] at hub
    obtain ⟨n, _, hbit⟩ := List.any_eq_true.mp hub
    cases hlk : c.zone_map.lookup n with
    | none => rw [hlk] at hbit; simp at hbit
    | some m =>
      rw [hlk] at hbit
      simp only [Option.getD_some] at hbit
      have : (orMasks c.zone_map).testBit i = true := by
        rw [orMasks_testBit]
        exact List.any_eq_true.mpr ⟨(n, m), lookup_mem hlk, hbit⟩
      simp [this]

/-- Comma-joining of zone names exactly as `get_zone_name` builds its
result string. -/
def commaJoin (names : List String) : String :=
  names.foldl appendName ""

/-- Evaluating `get_zone_name` on the encoding of an arbitrary 24-bit mask, for a
registry with pairwise disjoint masks: the names of the overlapped
zones in registry order, with the residual bits (those in no zone mask)
rendered as a final `UNKNOWN(<hex>)` token exactly when nonzero. -/
theorem getZoneName_spec (c : Ctrl) (u : Nat)
    (hpd : c.zone_map.Pairwise (fun p q => p.2 &&& q.2 = 0))
    (h24 : u < 2 ^ 24) :
    getZoneName c (enc3 u) =
      (if Nat.ldiff u (orMasks c.zone_map) ≠ 0 then
        appendName
          (commaJoin ((c.zone_map.filter (fun p => u &&& p.2 != 0)).map Prod.fst))
          ("UNKNOWN(" ++ natHex (Nat.ldiff u (orMasks c.zone_map)) ++ ")")
      else
        commaJoin ((c.zone_map.filter (fun p => u &&& p.2 != 0)).map Prod.fst)) := by
  unfold getZoneName
  rw [dec_enc3 u h24]
  simp only [gzLoop_spec c.zone_map hpd]
  simp only [commaJoin, List.foldl_map]

/-! ## Claim theorems -/

/-- Claim C1, as stated, is false on the code: the normal Boot pass of
the scenario theme does not compile to the four claimed packets
(save-marker, fixed-colour, loop-block-end, save) — `_make_zone_cmds`
also emits a second save-next marker between the last action packet
and the loop-block-end marker, giving five packets. -/
theorem C1_counterexample :
    makeZoneCmds ctrlLK themeLK "Boot" false ≠
      some [Cmd.saveNext 1, Cmd.setColour 1 1 [15, 0, 0],
            Cmd.loopBlockEnd, Cmd.save] := by
  decide

/-- Claim C1 (amended): the scenario theme compiles, in the normal
Boot pass, to save-next, fixed-colour(zone 0x1, colour (15,0,0)),
save-next, loop-block-end, save — one save-next before each action
packet AND one more save-next before the item's loop-block-end marker;
in general the non-boot items loop is exactly the framed segments of
the producing items at consecutive block numbers, where the non-boot
frame of an item's action packets interleaves a save-next marker
before every action packet and closes with save-next, loop-block-end. -/
theorem C1_amended_scenario_and_framing :
    (makeZoneCmds ctrlLK themeLK "Boot" false =
      some [Cmd.saveNext 1, Cmd.setColour 1 1 [15, 0, 0], Cmd.saveNext 1,
            Cmd.loopBlockEnd, Cmd.save]) ∧
    (∀ (c : Ctrl) (state : Nat) (items : List StateItem) (b : Nat),
      zoneItemsLoop c state false items b =
        (segsFrom c state false b (prodItems c items),
         b + (prodItems c items).length)) ∧
    (∀ (state : Nat) (lcs : List Cmd),
      segOf state false lcs =
        lcs.foldr (fun lc acc => Cmd.saveNext state :: lc :: acc)
          [Cmd.saveNext state, Cmd.loopBlockEnd]) := by
  refine ⟨by decide,
    fun c state items b => zoneItemsLoop_eq c state false items b, ?_⟩
  intro state lcs
  induction lcs with
  | nil => rfl
  | cons lc rest ih => simp [segOf, ih]

/-- Claim C2, as stated, is false on the code: when every read returns
a packet whose status byte differs from READY, the loop body changes
neither the ready flag nor the error counter, so after 10 attempts the
guard still holds and an 11th get-status attempt is made (under this
response pattern the loop in fact never exits). -/
theorem C2_counterexample :
    waitGuard (waitIter (fun _ => PollResp.data [STATUS_READY + 1]) 10) = true := by
  decide

/-- Claim C2 (amended): the polling loop makes at most 10 get-status
attempts — the guard is off after 10 iterations — provided no response
is a data packet with a non-READY status byte (i.e. each response is
READY data, no data, or a read error); a non-READY data packet leaves
the loop state unchanged, so a stream of them keeps the loop running
beyond any bound. -/
theorem C2_amended_bounded (f : Nat → PollResp)
    (hf : ∀ n, goodResp (f n) = true) :
    waitGuard (waitIter f 10) = false := by
  cases hg : waitGuard (waitIter f 10) with
  | false => rfl
  | true =>
    have h10 := waitIter_errcount f hf 10 hg
    have hlt : (waitIter f 10).errcount < 10 := by
      rw [waitGuard] at hg
      simp at hg
      exact hg.2
    omega

theorem C2_witness :
    (∀ n : Nat, goodResp ((fun _ => PollResp.noData) n) = true) ∧
    waitGuard (waitIter (fun _ => PollResp.noData) 10) = false :=
  ⟨fun _ => rfl, C2_amended_bounded (fun _ => PollResp.noData) (fun _ => rfl)⟩

/-- Claim C3: for every theme and state known to the controller, the
boot-replay pass emits zero save-next markers and zero save packets,
and its output is the unsaved item segments followed by exactly one
final block — a set-colour packet addressing the controller's no-zone
code (`_get_no_zone_code`) with colour (0,0,0), closed by one
loop-block-end marker; no other packet of the output addresses the
no-zone code. -/
theorem C3_boot_replay (c : Ctrl) (tf : Theme) (stateName : String) (state : Nat)
    (h : c.state_map.lookup stateName = some state) :
    ∃ out, makeZoneCmds c tf stateName true = some out ∧
      out.countP isSaveNextCmd = 0 ∧
      out.count Cmd.save = 0 ∧
      out = segsFrom c state true 1 (prodItems c (getStateItems tf stateName)) ++
        [Cmd.setColour (1 + (prodItems c (getStateItems tf stateName)).length)
           (getNoZoneCode c) [0, 0, 0], Cmd.loopBlockEnd] ∧
      out.countP (fun cmd => zonesOf cmd == some (getNoZoneCode c)) = 1 := by
  refine ⟨_, makeZoneCmds_true_eq c tf stateName state h, ?_, ?_, rfl, ?_⟩
  · rw [List.countP_append, segsFrom_countP_saveNext_boot]
    simp [List.countP_cons, isSaveNextCmd]
  · rw [List.count_append, segsFrom_count_save]
    simp [List.count_cons]
  · rw [List.countP_append, countP_noZone_segsFrom]
    simp [List.countP_cons, zonesOf]

theorem C3_witness :
    ctrlLK.state_map.lookup "Boot" = some 1 ∧
    (∃ out, makeZoneCmds ctrlLK themeLK "Boot" true = some out ∧
      out.countP isSaveNextCmd = 0 ∧
      out.count Cmd.save = 0 ∧
      out = segsFrom ctrlLK 1 true 1 (prodItems ctrlLK (getStateItems themeLK "Boot")) ++
        [Cmd.setColour (1 + (prodItems ctrlLK (getStateItems themeLK "Boot")).length)
           (getNoZoneCode ctrlLK) [0, 0, 0], Cmd.loopBlockEnd] ∧
      out.countP (fun cmd => zonesOf cmd == some (getNoZoneCode ctrlLK)) = 1) :=
  ⟨rfl, C3_boot_replay ctrlLK themeLK "Boot" 1 rfl⟩

/-- Claim C4, as stated, is false on the code: it asserts exactly N
loop-block-end markers for the compiled output of a state with N
packet-producing items, but the boot-replay pass of the scenario theme
has N = 1 producing item and emits 2 loop-block-end markers — its
synthetic trailing no-zone block always adds one more (likewise, a
state absent from the theme still yields the 2 synthetic packets in
the boot-replay pass rather than zero). -/
theorem C4_counterexample :
    (prodItems ctrlLK (getStateItems themeLK "Boot")).length = 1 ∧
    ((makeZoneCmds ctrlLK themeLK "Boot" true).getD []).count Cmd.loopBlockEnd = 2 := by
  decide

/-- Claim C4 (amended): in the normal pass a state with N
packet-producing items compiles to exactly N loop-block-end markers
and exactly one trailing save packet when N > 0, none when N = 0; the
boot-replay pass emits N + 1 loop-block-end markers (the synthetic
final block adds one) and zero save packets; a state absent from the
theme compiles to zero packets in the normal pass; and a state-item
with an empty loop contributes zero packets and consumes no block
number wherever it stands. -/
theorem C4_amended_counts :
    (∀ (c : Ctrl) (tf : Theme) (stateName : String) (state : Nat),
      c.state_map.lookup stateName = some state →
      ∃ out, makeZoneCmds c tf stateName false = some out ∧
        out.count Cmd.loopBlockEnd =
          (prodItems c (getStateItems tf stateName)).length ∧
        out.count Cmd.save =
          (if (prodItems c (getStateItems tf stateName)).length = 0 then 0 else 1)) ∧
    (∀ (c : Ctrl) (tf : Theme) (stateName : String) (state : Nat),
      c.state_map.lookup stateName = some state →
      ∃ out, makeZoneCmds c tf stateName true = some out ∧
        out.count Cmd.loopBlockEnd =
          (prodItems c (getStateItems tf stateName)).length + 1 ∧
        out.count Cmd.save = 0) ∧
    (∀ (c : Ctrl) (tf : Theme) (stateName : String) (state : Nat),
      c.state_map.lookup stateName = some state →
      tf.states.lookup stateName = none →
      makeZoneCmds c tf stateName false = some []) ∧
    (∀ (c : Ctrl) (state : Nat) (boot : Bool) (b : Nat)
        (pre post : List StateItem) (it : StateItem),
      getLoopItems it = [] →
      zoneItemsLoop c state boot (pre ++ it :: post) b =
        zoneItemsLoop c state boot (pre ++ post) b) := by
  refine ⟨?_, ?_, ?_, ?_⟩
  · intro c tf stateName state h
    refine ⟨_, makeZoneCmds_false_eq c tf stateName state h, ?_, ?_⟩
    · rw [List.count_append, segsFrom_count_loopBlockEnd]
      by_cases hp : prodItems c (getStateItems tf stateName) = [] <;>
        simp [hp, List.count_cons]
    · rw [List.count_append, segsFrom_count_save]
      by_cases hp : prodItems c (getStateItems tf stateName) = []
      · simp [hp]
      · rw [if_neg hp]
        simp [List.count_cons, List.length_eq_zero, hp]
  · intro c tf stateName state h
    refine ⟨_, makeZoneCmds_true_eq c tf stateName state h, ?_, ?_⟩
    · rw [List.count_append, segsFrom_count_loopBlockEnd]
      simp [List.count_cons]
    · rw [List.count_append, segsFrom_count_save]
      simp [List.count_cons]
  · intro c tf stateName state h habs
    rw [makeZoneCmds_false_eq c tf stateName state h]
    have : getStateItems tf stateName = [] := by
      unfold getStateItems
      rw [habs]
    rw [this]
    simp [prodItems, segsFrom]
  · intro c state boot b pre post it hit
    induction pre generalizing b with
    | nil =>
      simp [zoneItemsLoop, hit, makeLoopCmds]
    | cons q rest ih =>
      simp only [List.cons_append, zoneItemsLoop, List.append_eq]
      rw [ih b, ih (b + 1)]

theorem C4_witness :
    ctrlLK.state_map.lookup "Boot" = some 1 ∧
    (∃ out, makeZoneCmds ctrlLK themeLK "Boot" false = some out ∧
      out.count Cmd.loopBlockEnd =
        (prodItems ctrlLK (getStateItems themeLK "Boot")).length ∧
      out.count Cmd.save =
        (if (prodItems ctrlLK (getStateItems themeLK "Boot")).length = 0 then 0 else 1)) :=
  ⟨rfl, C4_amended_counts.1 ctrlLK themeLK "Boot" 1 rfl⟩

/-- Claim C5, as stated, is false on the code: on the ASM100 registry
the zone "Alien Head" has bitmask 0x00, so decomposing the 3-byte
encoding of the composition of S = ["Alien Head"] yields the empty
string instead of "Alien Head" — a zero-mask zone can never be
recovered by `get_zone_name`. -/
theorem C5_counterexample :
    getZoneName asm100 (enc3 (getZoneCodes asm100 ["Alien Head"])) = "" ∧
    ("" : String) ≠ "Alien Head" := by
  constructor
  · rfl
  · decide

/-- Claim C5 (amended): for a registry with pairwise disjoint masks
and distinct names, (1) when additionally every mask is nonzero (and
24-bit), decomposing the encoding of the composition of any set of
zone names yields exactly those zones' names, comma-joined in registry
order, with no UNKNOWN token; and (2) for every 24-bit mask the
decomposition accounts for every set bit exactly once: the output
names exactly the overlapped zones plus one UNKNOWN(<hex>) token for
the residue exactly when it is nonzero, the mask's bits split
disjointly into the zone-covered part and that residue, every set bit
lands in the residue or in a named zone's mask, and (by disjointness)
in at most one named zone.  On the ASM100 itself part (1) fails for
the zones with mask 0x00 (see the counterexample). -/
theorem C5_amended_decomposition :
    (∀ (c : Ctrl) (S : List String),
      c.zone_map.Pairwise (fun p q => p.2 &&& q.2 = 0) →
      (∀ p ∈ c.zone_map, p.2 ≠ 0) →
      (c.zone_map.map Prod.fst).Nodup →
      (∀ p ∈ c.zone_map, p.2 < 2 ^ 24) →
      getZoneName c (enc3 (getZoneCodes c S)) =
        commaJoin ((c.zone_map.filter (fun p => decide (p.1 ∈ S))).map Prod.fst)) ∧
    (∀ (c : Ctrl) (u : Nat),
      c.zone_map.Pairwise (fun p q => p.2 &&& q.2 = 0) →
      u < 2 ^ 24 →
      (getZoneName c (enc3 u) =
        (if Nat.ldiff u (orMasks c.zone_map) ≠ 0 then
          appendName
            (commaJoin ((c.zone_map.filter (fun p => u &&& p.2 != 0)).map Prod.fst))
            ("UNKNOWN(" ++ natHex (Nat.ldiff u (orMasks c.zone_map)) ++ ")")
        else
          commaJoin ((c.zone_map.filter (fun p => u &&& p.2 != 0)).map Prod.fst))) ∧
      ((u &&& orMasks c.zone_map) ||| Nat.ldiff u (orMasks c.zone_map) = u) ∧
      ((u &&& orMasks c.zone_map) &&& Nat.ldiff u (orMasks c.zone_map) = 0) ∧
      (∀ i, u.testBit i = true →
        (Nat.ldiff u (orMasks c.zone_map)).testBit i = true ∨
        ∃ p ∈ c.zone_map.filter (fun p => u &&& p.2 != 0), p.2.testBit i = true) ∧
      (∀ (p q : String × Nat) (i : Nat),
        p ∈ c.zone_map.filter (fun p => u &&& p.2 != 0) →
        q ∈ c.zone_map.filter (fun p => u &&& p.2 != 0) →
        p.2.testBit i = true → q.2.testBit i = true → p = q)) := by
  constructor
  · intro c S hpd hnz hnd hlt
    have h24 := getZoneCodes_lt_two_pow c S hlt
    rw [getZoneName_spec c (getZoneCodes c S) hpd h24, getZoneCodes_resid_zero]
    rw [if_neg (by simp)]
    congr 1
    congr 1
    apply List.filter_congr
    intro p hp
    exact matched_iff_mem c S hpd hnz hnd p hp
  · intro c u hpd h24
    refine ⟨getZoneName_spec c u hpd h24,
      (land_lor_ldiff_partition u (orMasks c.zone_map)).1,
      (land_lor_ldiff_partition u (orMasks c.zone_map)).2, ?_, ?_⟩
    · intro i hbit
      cases hor : (orMasks c.zone_map).testBit i with
      | false =>
        left
        simp [Nat.testBit_ldiff, hbit, hor]
      | true =>
        right
        rw [orMasks_testBit] at hor
        obtain ⟨p, hp, hpbit⟩ := List.any_eq_true.mp hor
        refine ⟨p, List.mem_filter.mpr ⟨hp, ?_⟩, hpbit⟩
        have hib : (u &&& p.2).testBit i = true := by
          simp [Nat.testBit_land, hbit, hpbit]
        have hne : u &&& p.2 ≠ 0 := by
          intro h0
          rw [h0] at hib
          simp at hib
        simpa using hne
    · intro p q i hpf hqf hpb hqb
      have hp := (List.mem_filter.mp hpf).1
      have hq := (List.mem_filter.mp hqf).1
      by_contra hne
      have hdisj : p.2 &&& q.2 = 0 :=
        (List.Pairwise.forall maskDisjointSymm hpd) hp hq hne
      rcases (land_eq_zero_iff_testBit p.2 q.2).mp hdisj i with h' | h' <;>
        simp_all

/-- A small well-formed registry used to witness the amended claim C5:
two zones with nonzero, disjoint masks. -/
def ctrlAB : Ctrl :=
  { zone_map := [("A", 1), ("B", 6)], state_map := [] }

theorem C5_witness :
    (ctrlAB.zone_map.Pairwise (fun p q => p.2 &&& q.2 = 0) ∧
     (∀ p ∈ ctrlAB.zone_map, p.2 ≠ 0) ∧
     (ctrlAB.zone_map.map Prod.fst).Nodup ∧
     (∀ p ∈ ctrlAB.zone_map, p.2 < 2 ^ 24)) ∧
    getZoneName ctrlAB (enc3 (getZoneCodes ctrlAB ["B"])) =
      commaJoin ((ctrlAB.zone_map.filter (fun p => decide (p.1 ∈ ["B"]))).map Prod.fst) :=
  ⟨⟨by decide, by decide, by decide, by decide⟩,
   C5_amended_decomposition.1 ctrlAB ["B"] (by decide) (by decide) (by decide)
     (by decide)⟩

/-- Claim C6: for every supported controller, the zone-map masks are
pairwise disjoint, and the OR of all zone masks combined with the
24-bit truncation of the (negative, two's-complement) no-zone code
covers exactly the full 24-bit address space. -/
theorem C6_zone_partition (c : Ctrl) (h : c ∈ supportedControllers) :
    c.zone_map.Pairwise (fun p q => p.2 &&& q.2 = 0) ∧
    (orMasks c.zone_map) ||| ((getNoZoneCode c) % (2 ^ 24 : Int)).toNat
      = 2 ^ 24 - 1 := by
  have hc : c = asm100 := by
    simpa [supportedControllers] using h
  subst hc
  constructor
  · decide
  · decide

theorem C6_witness :
    asm100 ∈ supportedControllers ∧
    (asm100.zone_map.Pairwise (fun p q => p.2 &&& q.2 = 0) ∧
     (orMasks asm100.zone_map) ||| ((getNoZoneCode asm100) % (2 ^ 24 : Int)).toNat
       = 2 ^ 24 - 1) :=
  ⟨by simp [supportedControllers],
   C6_zone_partition asm100 (by simp [supportedControllers])⟩

/-- An action's packet is `none` exactly when its declared arity is
violated, so mismatched actions vanish from the compiled loop. -/
theorem actionCmd_none_of_mismatch (z : Int) (b : Nat) (a : ThemeAction)
    (h : arityMismatch a) : actionCmd z b a = none := by
  unfold actionCmd
  rcases h with ⟨ht, hlen⟩ | ⟨ht, hlen⟩ | ⟨ht, hlen⟩ <;> rw [ht]
  · simp only [if_pos rfl]
    cases hc : getActionColours a with
    | nil => rfl
    | cons c1 cs =>
      cases cs with
      | nil => rw [hc] at hlen; simp at hlen
      | cons c2 cs2 => rfl
  · simp only [if_neg (by simp : ¬("blink" : String) = "fixed"), if_pos rfl]
    cases hc : getActionColours a with
    | nil => rfl
    | cons c1 cs =>
      cases cs with
      | nil => rw [hc] at hlen; simp at hlen
      | cons c2 cs2 => rfl
  · simp only [if_neg (by simp : ¬("morph" : String) = "fixed"),
      if_neg (by simp : ¬("morph" : String) = "blink"), if_pos rfl]
    cases hc : getActionColours a with
    | nil => rfl
    | cons c1 cs =>
      cases cs with
      | nil => rfl
      | cons c2 cs2 =>
        cases cs2 with
        | nil => rw [hc] at hlen; simp at hlen
        | cons c3 cs3 => rfl

/-- Claim C7: an action whose colour-list length does not match its
declared type's arity (fixed or blink with other than 1 colour, morph
with other than 2) contributes zero packets: deleting it from the loop
leaves the compiled commands unchanged, and the remaining actions
before and after it are still compiled (the logged warning is not
modelled; the compiler is a total function, so nothing is raised). -/
theorem C7_arity_mismatch_skipped (z : Int) (b : Nat)
    (pre post : List ThemeAction) (a : ThemeAction) (h : arityMismatch a) :
    makeLoopCmds z b (pre ++ a :: post) = makeLoopCmds z b (pre ++ post) := by
  rw [makeLoopCmds_eq_filterMap, makeLoopCmds_eq_filterMap,
    List.filterMap_append, List.filterMap_append, List.filterMap_cons,
    actionCmd_none_of_mismatch z b a h]

theorem C7_witness :
    arityMismatch { typeKey := some "blink", coloursKey := some [[1, 2, 3], [4, 5, 6]] } ∧
    makeLoopCmds 1 1
        ([{ typeKey := some "fixed", coloursKey := some [[15, 0, 0]] }] ++
          { typeKey := some "blink", coloursKey := some [[1, 2, 3], [4, 5, 6]] } ::
          [{ typeKey := some "fixed", coloursKey := some [[0, 15, 0]] }]) =
      makeLoopCmds 1 1
        ([{ typeKey := some "fixed", coloursKey := some [[15, 0, 0]] }] ++
          [{ typeKey := some "fixed", coloursKey := some [[0, 15, 0]] }]) :=
  ⟨by decide,
   C7_arity_mismatch_skipped 1 1
     [{ typeKey := some "fixed", coloursKey := some [[15, 0, 0]] }]
     [{ typeKey := some "fixed", coloursKey := some [[0, 15, 0]] }]
     { typeKey := some "blink", coloursKey := some [[1, 2, 3], [4, 5, 6]] }
     (by decide)⟩

/-- The driver after a release never holds control. -/
theorem releaseRun_controlTaken (st : DriverState) :
    (releaseRun st).controlTaken = false := by
  unfold releaseRun
  cases h : st.controlTaken <;> simp [h]

/-- Claim C8: on every execution path of `set_theme` — acquire failure
because the hardware path is absent, a fault in any later step, or
normal completion — the final driver state is the released
post-acquire state, hence holds no control; and `release` is
idempotent: releasing twice equals releasing once, and releasing a
driver that holds no control (never acquired, or already released)
leaves it unchanged. -/
theorem C8_release_always (env : AcpiEnv) (st : DriverState) (p : Option String) :
    (setThemeRun env st).2.controlTaken = false ∧
    (setThemeRun env st).2 = releaseRun (acquireRun env st).2 ∧
    releaseRun (releaseRun st) = releaseRun st ∧
    releaseRun ⟨false, p⟩ = ⟨false, p⟩ := by
  have hrel : (setThemeRun env st).2 = releaseRun (acquireRun env st).2 := by
    unfold setThemeRun
    rcases haq : acquireRun env st with ⟨e, st1⟩
    cases e <;> cases hbf : env.bodyFault <;> simp [hbf]
  refine ⟨?_, hrel, ?_, ?_⟩
  · rw [hrel]
    exact releaseRun_controlTaken _
  · unfold releaseRun
    cases h : st.controlTaken <;> simp [h]
  · unfold releaseRun
    simp

/-- Claim C9: in every driver state where control is not taken
(acquire never succeeded, or release was already called),
`write_packet` performs no file write and returns normally, and
`read_packet` performs no file read and returns `None`; both are
total functions of the model, mirroring that the source catches all
I/O exceptions in these methods. -/
theorem C9_no_io_without_control (env : AcpiEnv) (st : DriverState)
    (pkt : List Nat) (h : st.controlTaken = false) :
    writePacket env st pkt = none ∧ readPacket env st = (false, none) := by
  unfold writePacket readPacket
  rw [h]
  simp

theorem C9_witness :
    (({ controlTaken := false, acpiPath := none } : DriverState).controlTaken = false) ∧
    (writePacket { pathOk := true, controlFileOk := true, readData := [], bodyFault := none }
        { controlTaken := false, acpiPath := none } [1, 2] = none ∧
     readPacket { pathOk := true, controlFileOk := true, readData := [], bodyFault := none }
        { controlTaken := false, acpiPath := none } = (false, none)) :=
  ⟨rfl, C9_no_io_without_control _ _ _ rfl⟩

/-- Claim C10: within one compilation pass the block counter starts at
1 and is advanced exactly by the packet-producing items, so the
producing items' segments appear at consecutive block numbers with no
gaps (a non-producing item consumes none); every action packet an item
compiles at block b carries block number b; and in the boot-replay
pass the final set-colour packet for the unreferenced zones carries
block number N + 1, where N is the number of producing items. -/
theorem C10_block_numbering :
    (∀ (c : Ctrl) (state : Nat) (boot : Bool) (items : List StateItem) (b : Nat),
      zoneItemsLoop c state boot items b =
        (segsFrom c state boot b (prodItems c items),
         b + (prodItems c items).length)) ∧
    (∀ (z : Int) (b : Nat) (l : List ThemeAction) (cmd : Cmd),
      cmd ∈ makeLoopCmds z b l → blockOf cmd = some b) ∧
    (∀ (c : Ctrl) (tf : Theme) (stateName : String) (state : Nat),
      c.state_map.lookup stateName = some state →
      makeZoneCmds c tf stateName true =
        some (segsFrom c state true 1 (prodItems c (getStateItems tf stateName)) ++
          [Cmd.setColour (1 + (prodItems c (getStateItems tf stateName)).length)
             (getNoZoneCode c) [0, 0, 0], Cmd.loopBlockEnd])) :=
  ⟨fun c state boot items b => zoneItemsLoop_eq c state boot items b,
   fun z b l cmd h => (mem_makeLoopCmds z b l cmd h).1,
   fun c tf stateName state h => makeZoneCmds_true_eq c tf stateName state h⟩

theorem C10_witness :
    ((Cmd.setColour 3 1 [15, 0, 0]) ∈
        makeLoopCmds 1 3 [{ typeKey := some "fixed", coloursKey := some [[15, 0, 0]] }] ∧
      blockOf (Cmd.setColour 3 1 [15, 0, 0]) = some 3) ∧
    (ctrlLK.state_map.lookup "Boot" = some 1 ∧
      makeZoneCmds ctrlLK themeLK "Boot" true =
        some (segsFrom ctrlLK 1 true 1 (prodItems ctrlLK (getStateItems themeLK "Boot")) ++
          [Cmd.setColour (1 + (prodItems ctrlLK (getStateItems themeLK "Boot")).length)
             (getNoZoneCode ctrlLK) [0, 0, 0], Cmd.loopBlockEnd])) :=
  ⟨⟨by decide, C10_block_numbering.2.1 1 3
      [{ typeKey := some "fixed", coloursKey := some [[15, 0, 0]] }]
      (Cmd.setColour 3 1 [15, 0, 0]) (by decide)⟩,
   ⟨rfl, C10_block_numbering.2.2 ctrlLK themeLK "Boot" 1 rfl⟩⟩
